import Mathlib

/-!
# NotepadNext: the document-persistence layer of `ScintillaNext`

A shallow embedding of `src/NotepadNext/ScintillaNext.cpp`.

* The object's own fields (`name`, `bufferType`, `fileInfo`, `modifiedTime`) and the part of the
  inherited `ScintillaEdit` buffer the code reads or writes (`text`, `status`, the undo and
  signal switches) are fields of `ScintillaNext`.
* The file system is a finite map from canonical file names to `(bytes, modification time)`.
* Everything the code does to the outside is appended, in program order, to a log of `Effect`s:
  Qt signals (`emit`), `qWarning` calls, calls into the buffer collaborator, and disk actions.
* Results the code cannot control (does the write commit, does the removal succeed, does a read
  fail, does the buffer run out of memory) are explicit arguments of the operation.
* `Q_ASSERT` is compiled out (release build): it has no effect in the embedding.
* `QFileInfo` is an uncached view of the disk: each query reads the disk, so `refresh()` is the
  identity.
* The loop of `readFromDisk` runs on fuel; the chunk size, `CHUNK_SIZE` in the source, is an
  argument, so that files of a few bytes span several chunks.
* `uchardet`, the codec registry of Qt and `QString::toUtf8` are arguments (`TextEnv`), as is the
  path algebra of Qt (`PathEnv`); a small model platform instantiates them for the examples.
-/

namespace NotepadNext

/-! ## Data model -/

/-- Modelled from the spec: the enum `ScintillaNext::BufferType`, declared in `ScintillaNext.h`,
which is not among the sources. The specification lists the states `Temporary`, `File` and
`FileMissing`; these are also the only values the code compares with or assigns. -/
inductive BufferType where
  | Temporary
  | File
  | FileMissing
  deriving DecidableEq, Repr

/-- Modelled from the spec: the enum `ScintillaNext::FileStateChange`, declared in
`ScintillaNext.h`, which is not among the sources. The specification lists the reported events
`NoChange`, `Modified`, `Deleted` and `Restored`; these are the values the code returns. -/
inductive FileStateChange where
  | NoChange
  | Modified
  | Deleted
  | Restored
  deriving DecidableEq, Repr

/-- The Qt signals that `ScintillaNext.cpp` emits (their declarations are in
`ScintillaNext.h`). -/
inductive Signal where
  | aboutToSave
  | saved
  | renamed
  | closed
  | savePointChanged (dirty : Bool)
  deriving DecidableEq, Repr

/-- The `qWarning` call sites of the file, one constructor per site. -/
inductive Warning where
  | writeToDiskFailure
  | cannotReadDoesNotExist
  | openFailed
  | uchardetFailed
  | noAvailableCodec
  | fallingBack
  | firstTwoBytes
  | usingCodec
  | badStatus
  | readError
  deriving DecidableEq, Repr

/-- Calls into the inherited `ScintillaEdit` buffer. -/
inductive SciCall where
  | setSavePoint
  | setUndoCollection (enable : Bool)
  | emptyUndoBuffer
  | setText
  | allocate (bytes : Nat)
  | blockSignals (enable : Bool)
  | appendText (length : Nat)
  deriving DecidableEq, Repr

/-- Actions on the disk. `read n` records the return value of one `QFile::read`. -/
inductive DiskAction where
  | write (path : String)
  | remove (path : String)
  | trash (path : String)
  | read (bytesRead : Int)
  deriving DecidableEq, Repr

/-- One externally visible step of the program. -/
inductive Effect where
  | emit (s : Signal)
  | warn (w : Warning)
  | sci (c : SciCall)
  | disk (a : DiskAction)
  deriving DecidableEq, Repr

/-- A file on disk: its bytes and its modification time. -/
structure FileEntry where
  data : List Nat
  mtime : Nat
  deriving DecidableEq, Repr

/-- The disk: canonical file name ↦ file. -/
abbrev Disk := List (String × FileEntry)

/-- Path algebra of `QFileInfo` / `QDir`, supplied by the platform. `canonical` resolves a
spelling (relative, with `.`/`..`, through links) to the name under which the disk stores the
file; `absolute` is `QFileInfo::makeAbsolute`; `fileName` is the last path component. -/
structure PathEnv where
  absolute : String → String
  canonical : String → String
  fileName : String → String

/-- The class `QFileInfo`, reduced to the path it is bound to (empty when default-constructed). -/
structure QFileInfo where
  file : String
  deriving DecidableEq, Repr

def SC_STATUS_OK : Nat := 0

def SC_STATUS_BADALLOC : Nat := 2

/-- The members of a `ScintillaNext` object that the persistence code reads or writes: its own
`name`, `bufferType`, `fileInfo`, `modifiedTime`, and of the inherited buffer the text, the
status and the two switches the loader turns. -/
structure ScintillaNext where
  name : String
  bufferType : BufferType
  fileInfo : QFileInfo
  modifiedTime : Option Nat
  text : List Nat
  status : Nat
  undoCollection : Bool
  signalsBlocked : Bool
  deriving DecidableEq, Repr

/-- The whole system: the editor object, the disk with its clock, and the effect log. -/
structure Sys where
  editor : ScintillaNext
  disk : Disk
  clock : Nat
  log : List Effect
  deriving DecidableEq, Repr

/-- The constructor `ScintillaNext::ScintillaNext(name)`: an unbacked document. -/
def ScintillaNext.new (name : String) : ScintillaNext :=
  { name := name, bufferType := BufferType.Temporary, fileInfo := ⟨""⟩, modifiedTime := none,
    text := [], status := SC_STATUS_OK, undoCollection := true, signalsBlocked := false }

/-! ## Disk and `QFileInfo` primitives -/

def Disk.find (d : Disk) (key : String) : Option FileEntry :=
  match d with
  | [] => none
  | (k, e) :: rest => if k = key then some e else Disk.find rest key

def Disk.erase (d : Disk) (key : String) : Disk :=
  d.filter (fun p => p.1 ≠ key)

def Disk.store (d : Disk) (key : String) (e : FileEntry) : Disk :=
  (key, e) :: Disk.erase d key

/-- The static `QFile::exists(path)`; the empty path names no file. -/
def QFile.exists (env : PathEnv) (d : Disk) (path : String) : Bool :=
  path ≠ "" && (Disk.find d (env.canonical path)).isSome

def QFileInfo.exists (env : PathEnv) (d : Disk) (fi : QFileInfo) : Bool :=
  QFile.exists env d fi.file

def QFileInfo.filePath (fi : QFileInfo) : String :=
  fi.file

/-- The method `QFileInfo::canonicalFilePath()`: empty when the file does not exist. -/
def QFileInfo.canonicalFilePath (env : PathEnv) (d : Disk) (fi : QFileInfo) : String :=
  if QFileInfo.exists env d fi then env.canonical fi.file else ""

/-- The method `QFileInfo::lastModified()`: no valid time when the file does not exist. -/
def QFileInfo.lastModified (env : PathEnv) (d : Disk) (fi : QFileInfo) : Option Nat :=
  if fi.file = "" then none else (Disk.find d (env.canonical fi.file)).map FileEntry.mtime

def Sys.say (s : Sys) (e : Effect) : Sys :=
  { s with log := s.log ++ [e] }

/-- The part of the log of `after` written since `before`. -/
def Sys.since (after before : Sys) : List Effect :=
  after.log.drop before.log.length

/-! ## `writeToDisk` -/

/-- What `QSaveFile` does with one write request. -/
inductive WriteOutcome where
  | openFailed
  | commitFailed
  | committed
  deriving DecidableEq, Repr

/-- The static function `writeToDisk(data, path)`. -/
def writeToDisk (env : PathEnv) (o : WriteOutcome) (data : List Nat) (path : String)
    (s : Sys) : Bool × Sys :=
  match o with
  | WriteOutcome.committed =>
      (true, { s with disk := Disk.store s.disk (env.canonical path) ⟨data, s.clock⟩,
                      clock := s.clock + 1,
                      log := s.log ++ [Effect.disk (DiskAction.write path)] })
  | WriteOutcome.commitFailed => (false, s)
  | WriteOutcome.openFailed => (false, s.say (Effect.warn Warning.writeToDiskFailure))

/-! ## Small member functions -/

def isFile (e : ScintillaNext) : Bool :=
  e.bufferType = BufferType.File || e.bufferType = BufferType.FileMissing

/-- The method `ScintillaNext::isSavedToDisk()`; `modify` is the value of the inherited
`modify()`, true when the buffer has changes past its save point. -/
def isSavedToDisk (modify : Bool) (e : ScintillaNext) : Bool :=
  e.bufferType ≠ BufferType.FileMissing && !modify

/-- The method `ScintillaNext::fileTimestamp()`. -/
def fileTimestamp (env : PathEnv) (s : Sys) : Option Nat :=
  QFileInfo.lastModified env s.disk s.editor.fileInfo

/-- The method `ScintillaNext::updateTimestamp()`. -/
def updateTimestamp (env : PathEnv) (s : Sys) : Sys :=
  { s with editor := { s.editor with modifiedTime := fileTimestamp env s } }

/-- The method `ScintillaNext::setFileInfo(filePath)`. -/
def setFileInfo (env : PathEnv) (filePath : String) (s : Sys) : Sys :=
  { s with editor := { s.editor with
      fileInfo := ⟨env.absolute filePath⟩,
      name := env.fileName (env.absolute filePath),
      bufferType := BufferType.File } }

/-- The inherited `setSavePoint()`. -/
def setSavePoint (s : Sys) : Sys :=
  s.say (Effect.sci SciCall.setSavePoint)

/-! ## `checkFileForStateChange` -/

/-- The method `ScintillaNext::checkFileForStateChange()`. The three branches cover the enum,
so the statements after them (`Q_ASSERT(false)`) are never reached. -/
def checkFileForStateChange (env : PathEnv) (s : Sys) : FileStateChange × Sys :=
  match s.editor.bufferType with
  | BufferType.Temporary => (FileStateChange.NoChange, s)
  | BufferType.File =>
      if !QFileInfo.exists env s.disk s.editor.fileInfo then
        let s1 := { s with editor := { s.editor with bufferType := BufferType.FileMissing } }
        let s2 := s1.say (Effect.emit (Signal.savePointChanged false))
        (FileStateChange.Deleted, s2)
      else if s.editor.modifiedTime ≠ fileTimestamp env s then
        (FileStateChange.Modified, s)
      else
        (FileStateChange.NoChange, s)
  | BufferType.FileMissing =>
      if QFileInfo.exists env s.disk s.editor.fileInfo then
        (FileStateChange.Restored,
          { s with editor := { s.editor with bufferType := BufferType.File } })
      else
        (FileStateChange.NoChange, s)

/-! ## Save, save-as, save-copy-as, rename, trash -/

/-- The method `ScintillaNext::save()`. -/
def save (env : PathEnv) (o : WriteOutcome) (s : Sys) : Bool × Sys :=
  let s1 := s.say (Effect.emit Signal.aboutToSave)
  match writeToDisk env o s1.editor.text (QFileInfo.filePath s1.editor.fileInfo) s1 with
  | (true, s2) =>
      let s3 := updateTimestamp env s2
      let s4 := setSavePoint s3
      (true, s4.say (Effect.emit Signal.saved))
  | (false, s2) => (false, s2)

/-- The method `ScintillaNext::saveAs(newFilePath)`. -/
def saveAs (env : PathEnv) (o : WriteOutcome) (newFilePath : String) (s : Sys) : Bool × Sys :=
  let isRenamed : Bool :=
    s.editor.bufferType = BufferType.Temporary
      || QFileInfo.canonicalFilePath env s.disk s.editor.fileInfo ≠ newFilePath
  let s1 := s.say (Effect.emit Signal.aboutToSave)
  match writeToDisk env o s1.editor.text newFilePath s1 with
  | (true, s2) =>
      let s3 := setFileInfo env newFilePath s2
      let s4 := updateTimestamp env s3
      let s5 := setSavePoint s4
      let s6 := s5.say (Effect.emit Signal.saved)
      (true, if isRenamed then s6.say (Effect.emit Signal.renamed) else s6)
  | (false, s2) => (false, s2)

/-- The method `ScintillaNext::saveCopyAs(filePath)`. -/
def saveCopyAs (env : PathEnv) (o : WriteOutcome) (filePath : String) (s : Sys) : Bool × Sys :=
  writeToDisk env o s.editor.text filePath s

/-- The static `QFile::remove(path)`; `ok` is whether the platform lets the removal through. -/
def QFile.remove (env : PathEnv) (ok : Bool) (path : String) (s : Sys) : Bool × Sys :=
  let s1 := s.say (Effect.disk (DiskAction.remove path))
  if ok && QFile.exists env s.disk path then
    (true, { s1 with disk := Disk.erase s1.disk (env.canonical path) })
  else
    (false, s1)

/-- The method `ScintillaNext::rename(newFilePath)`. The value of `QFile::remove` is dropped. -/
def rename (env : PathEnv) (o : WriteOutcome) (removeOk : Bool) (newFilePath : String)
    (s : Sys) : Bool × Sys :=
  let s1 := s.say (Effect.emit Signal.aboutToSave)
  match saveCopyAs env o newFilePath s1 with
  | (true, s2) =>
      let oldPath := QFileInfo.canonicalFilePath env s2.disk s2.editor.fileInfo
      let s3 := (QFile.remove env removeOk oldPath s2).2
      let s4 := setFileInfo env newFilePath s3
      let s5 := updateTimestamp env s4
      let s6 := setSavePoint s5
      let s7 := s6.say (Effect.emit Signal.saved)
      (true, s7.say (Effect.emit Signal.renamed))
  | (false, s2) => (false, s2)

/-- The method `QFile::moveToTrash()`; `ok` is whether the platform's trash accepts the file. -/
def QFile.moveToTrash (env : PathEnv) (ok : Bool) (path : String) (s : Sys) : Bool × Sys :=
  let s1 := s.say (Effect.disk (DiskAction.trash path))
  if ok then (true, { s1 with disk := Disk.erase s1.disk (env.canonical path) }) else (false, s1)

/-- The method `ScintillaNext::moveToTrash()`. -/
def moveToTrash (env : PathEnv) (ok : Bool) (s : Sys) : Bool × Sys :=
  if QFile.exists env s.disk (QFileInfo.canonicalFilePath env s.disk s.editor.fileInfo) then
    QFile.moveToTrash env ok (QFileInfo.canonicalFilePath env s.disk s.editor.fileInfo) s
  else
    (false, s)

/-! ## `readFromDisk` -/

/-- The constant `CHUNK_SIZE`. -/
def CHUNK_SIZE : Nat := 1024 * 1024 * 4

/-- The struct `QTextCodec::ConverterState`: what a decoder carries from one call to the next. -/
structure ConverterState where
  headerDone : Bool
  remaining : List Nat
  deriving DecidableEq, Repr

/-- A `QTextCodec`: a name and its `toUnicode`, which maps the carried state and a chunk of
bytes to UTF-16 code units and the state to carry on. -/
structure QTextCodec where
  name : String
  toUnicode : ConverterState → List Nat → List Nat × ConverterState

/-- A `QTextDecoder`: a codec with its converter state. -/
structure QTextDecoder where
  codec : QTextCodec
  state : ConverterState

/-- The method `QTextCodec::makeDecoder()`. -/
def QTextCodec.makeDecoder (codec : QTextCodec) : QTextDecoder :=
  { codec := codec, state := ⟨false, []⟩ }

/-- The text services the loader consumes: the `uchardet` detector, the codec registry of
`QTextCodec` and `QString::toUtf8`. -/
structure TextEnv where
  uchardet_handle_data : List Nat → Int
  uchardet_get_charset : List Nat → String
  codecForName : String → Option QTextCodec
  codecForUtfText : List Nat → QTextCodec
  toUtf8 : List Nat → List Nat

/-- An open `QFile`: the bytes from the read position to the end of the file, and the script of
the coming reads (`true`: that read fails and returns `-1`; past the script no read fails). -/
structure QFile where
  pending : List Nat
  readFaults : List Bool
  deriving DecidableEq, Repr

/-- The method `QFile::read(data, maxSize)`: the value returned, the bytes delivered, the device
afterwards. A failed read leaves the position where it was. -/
def QFile.read (f : QFile) (maxSize : Nat) : Int × List Nat × QFile :=
  match f.readFaults with
  | true :: rest => (-1, [], { f with readFaults := rest })
  | false :: rest =>
      (((f.pending.take maxSize).length : Nat), f.pending.take maxSize,
        { pending := f.pending.drop maxSize, readFaults := rest })
  | [] =>
      (((f.pending.take maxSize).length : Nat), f.pending.take maxSize,
        { pending := f.pending.drop maxSize, readFaults := [] })

/-- The method `QFile::atEnd()`. -/
def QFile.atEnd (f : QFile) : Bool :=
  f.pending.isEmpty

/-- What the platform does during one `readFromDisk`: whether the file opens, whether
`allocate` finds the memory, which reads fail, and which `appendText` calls run out of memory
(`true`: that call fails; past the script no call fails). -/
structure ReadFaults where
  openOk : Bool
  allocOk : Bool
  reads : List Bool
  appends : List Bool
  deriving DecidableEq, Repr

/-- No fault at all. -/
def ReadFaults.none : ReadFaults :=
  { openOk := true, allocOk := true, reads := [], appends := [] }

/-- The local variables of `readFromDisk` while its loop runs, with the system. -/
structure LoadState where
  sys : Sys
  file : QFile
  appends : List Bool
  decoder : Option QTextDecoder
  first_read : Bool
  bytesRead : Int

def LoadState.say (st : LoadState) (e : Effect) : LoadState :=
  { st with sys := st.sys.say e }

/-- The inherited `allocate(bytes)`; a failed allocation sets the buffer status. -/
def allocate (ok : Bool) (bytes : Nat) (s : Sys) : Sys :=
  let s1 := s.say (Effect.sci (SciCall.allocate bytes))
  if ok then s1 else { s1 with editor := { s1.editor with status := SC_STATUS_BADALLOC } }

/-- The inherited `setUndoCollection(b)`. -/
def setUndoCollection (b : Bool) (s : Sys) : Sys :=
  { s with editor := { s.editor with undoCollection := b },
           log := s.log ++ [Effect.sci (SciCall.setUndoCollection b)] }

/-- The inherited `blockSignals(b)`. -/
def blockSignals (b : Bool) (s : Sys) : Sys :=
  { s with editor := { s.editor with signalsBlocked := b },
           log := s.log ++ [Effect.sci (SciCall.blockSignals b)] }

/-- The inherited `emptyUndoBuffer()`. -/
def emptyUndoBuffer (s : Sys) : Sys :=
  s.say (Effect.sci SciCall.emptyUndoBuffer)

/-- The inherited `setText(text)`. -/
def setText (text : List Nat) (s : Sys) : Sys :=
  { s with editor := { s.editor with text := text },
           log := s.log ++ [Effect.sci SciCall.setText] }

/-- The inherited `appendText(length, text)`. The head of the script says whether this call
runs out of memory: then nothing is appended and the status becomes `SC_STATUS_BADALLOC`. -/
def appendText (data : List Nat) (st : LoadState) : LoadState :=
  let s1 := st.sys.say (Effect.sci (SciCall.appendText data.length))
  match st.appends with
  | true :: rest =>
      { st with appends := rest,
                sys := { s1 with editor := { s1.editor with status := SC_STATUS_BADALLOC } } }
  | false :: rest =>
      { st with appends := rest,
                sys := { s1 with editor := { s1.editor with text := s1.editor.text ++ data } } }
  | [] =>
      { st with sys := { s1 with editor := { s1.editor with text := s1.editor.text ++ data } } }

/-- The codec the `first_read` block settles on for the sample `chunk`: the registry's codec
for the charset `uchardet` names, else `QTextCodec::codecForUtfText(chunk)`. -/
def chooseCodec (tenv : TextEnv) (chunk : List Nat) : QTextCodec :=
  match tenv.codecForName (tenv.uchardet_get_charset chunk) with
  | some codec => codec
  | none => tenv.codecForUtfText chunk

/-- The `if (first_read)` block of the loop: detect the encoding of `chunk`, make the decoder. -/
def detectEncoding (tenv : TextEnv) (chunk : List Nat) (st : LoadState) : LoadState :=
  let st1 := { st with first_read := false }
  let st2 := if tenv.uchardet_handle_data chunk ≠ 0 then
      st1.say (Effect.warn Warning.uchardetFailed) else st1
  match tenv.codecForName (tenv.uchardet_get_charset chunk) with
  | some codec => { st2 with decoder := some codec.makeDecoder }
  | none =>
      let st3 := (st2.say (Effect.warn Warning.noAvailableCodec)).say
        (Effect.warn Warning.fallingBack)
      let st4 := if chunk.length ≥ 2 then st3.say (Effect.warn Warning.firstTwoBytes) else st3
      let codec := tenv.codecForUtfText chunk
      { st4 with decoder := some codec.makeDecoder }.say (Effect.warn Warning.usingCodec)

/-- The expression `decoder->toUnicode(chunk).toUtf8()`: the UTF-8 bytes of one chunk and the
state the decoder carries on. -/
def decodeChunk (tenv : TextEnv) (codec : QTextCodec) (state : ConverterState)
    (chunk : List Nat) : List Nat × ConverterState :=
  (tenv.toUtf8 (codec.toUnicode state chunk).1, (codec.toUnicode state chunk).2)

/-- The last two statements of the loop body: decode the chunk and append it. -/
def decodeAndAppend (tenv : TextEnv) (chunk : List Nat) (st : LoadState) : LoadState :=
  match st.decoder with
  | none => st
  | some d =>
      let r := decodeChunk tenv d.codec d.state chunk
      appendText r.1 { st with decoder := some { d with state := r.2 } }

/-- One pass through the body of the `do ... while` loop. -/
def readChunk (tenv : TextEnv) (chunkSize : Nat) (st : LoadState) : LoadState :=
  let r := QFile.read st.file chunkSize
  let bytesRead := r.1
  let chunk := r.2.1.take bytesRead.toNat
  let st1 := { st with file := r.2.2, bytesRead := bytesRead }.say
    (Effect.disk (DiskAction.read bytesRead))
  let st2 := if st1.first_read then detectEncoding tenv chunk st1 else st1
  decodeAndAppend tenv chunk st2

/-- The `do ... while (!file.atEnd() && status() == SC_STATUS_OK)` loop; `none` when the fuel
does not reach the end of the loop. -/
def readLoop (tenv : TextEnv) (chunkSize : Nat) : Nat → LoadState → Option LoadState
  | 0, _ => none
  | fuel + 1, st =>
      let st1 := readChunk tenv chunkSize st
      if !QFile.atEnd st1.file && st1.sys.editor.status == SC_STATUS_OK then
        readLoop tenv chunkSize fuel st1
      else
        some st1

/-- The method `ScintillaNext::readFromDisk(file)`, for the file named `fileName`. The source
reads chunks of `CHUNK_SIZE` bytes; the chunk size is an argument here. -/
def readFromDisk (penv : PathEnv) (tenv : TextEnv) (chunkSize fuel : Nat) (io : ReadFaults)
    (fileName : String) (s : Sys) : Option (Bool × Sys) :=
  if !QFile.exists penv s.disk fileName then
    some (false, s.say (Effect.warn Warning.cannotReadDoesNotExist))
  else if !io.openOk then
    some (false, s.say (Effect.warn Warning.openFailed))
  else
    let content := ((Disk.find s.disk (penv.canonical fileName)).map FileEntry.data).getD []
    let s1 := allocate io.allocOk content.length s
    let s2 := setUndoCollection false s1
    let s3 := blockSignals true s2
    match readLoop tenv chunkSize fuel
        { sys := s3, file := ⟨content, io.reads⟩, appends := io.appends, decoder := Option.none,
          first_read := true, bytesRead := 0 } with
    | Option.none => Option.none
    | some st =>
        let s4 := blockSignals false st.sys
        let s5 := setUndoCollection true s4
        if s5.editor.status ≠ SC_STATUS_OK then
          some (false, s5.say (Effect.warn Warning.badStatus))
        else if st.bytesRead = -1 then
          some (false, s5.say (Effect.warn Warning.readError))
        else
          some (true, s5)

/-- The method `ScintillaNext::reload()`. The `QSignalBlocker` blocks the signals for the
block that empties the buffer and puts the previous setting back when the block ends. -/
def reload (penv : PathEnv) (tenv : TextEnv) (chunkSize fuel : Nat) (io : ReadFaults)
    (s : Sys) : Option Sys :=
  if !QFile.exists penv s.disk (QFileInfo.canonicalFilePath penv s.disk s.editor.fileInfo) then
    some s
  else
    let s1 := blockSignals true s
    let s2 := setUndoCollection false s1
    let s3 := emptyUndoBuffer s2
    let s4 := setText [] s3
    let s5 := setUndoCollection true s4
    let s6 := blockSignals s.editor.signalsBlocked s5
    match readFromDisk penv tenv chunkSize fuel io
        (QFileInfo.canonicalFilePath penv s6.disk s6.editor.fileInfo) s6 with
    | Option.none => Option.none
    | some (true, s7) => some (setSavePoint (updateTimestamp penv s7))
    | some (false, s7) => some s7

/-! ### Vocabulary for the proofs about the loader -/

/-- The state in which `readFromDisk` enters its loop. -/
def loopEntry (penv : PathEnv) (io : ReadFaults) (fileName : String) (s : Sys) : LoadState :=
  { sys := blockSignals true (setUndoCollection false (allocate io.allocOk
      (((Disk.find s.disk (penv.canonical fileName)).map FileEntry.data).getD []).length s)),
    file := ⟨((Disk.find s.disk (penv.canonical fileName)).map FileEntry.data).getD [], io.reads⟩,
    appends := io.appends, decoder := Option.none, first_read := true, bytesRead := 0 }

/-- The statements of `readFromDisk` after its loop. -/
def loopExit (st : LoadState) : Bool × Sys :=
  let s5 := setUndoCollection true (blockSignals false st.sys)
  if s5.editor.status ≠ SC_STATUS_OK then (false, s5.say (Effect.warn Warning.badStatus))
  else if st.bytesRead = -1 then (false, s5.say (Effect.warn Warning.readError))
  else (true, s5)

/-- A pass through the loop body with no fault: `P` is what is left of the file, `text` what the
buffer holds, and `codec` with `state` is the decoder in use, or the one the first pass will
make. -/
def CleanPass (tenv : TextEnv) (chunkSize : Nat) (st : LoadState) (codec : QTextCodec)
    (state : ConverterState) (P text : List Nat) : Prop :=
  st.file = ⟨P, []⟩ ∧ st.appends = [] ∧ st.sys.editor.status = SC_STATUS_OK
    ∧ st.sys.editor.text = text
    ∧ ((st.first_read = true ∧ codec = chooseCodec tenv (P.take chunkSize)
          ∧ state = ⟨false, []⟩)
        ∨ (st.first_read = false ∧ st.decoder = some ⟨codec, state⟩))

/-- The effect is one `QFile::read`. -/
def isRead (e : Effect) : Bool :=
  match e with
  | Effect.disk (DiskAction.read _) => true
  | _ => false

/-! ## The operations of a document, as one type -/

/-- One call of an operation of the document, with its arguments and with what the platform
does during the call. -/
inductive Op where
  | save (o : WriteOutcome)
  | saveAs (o : WriteOutcome) (newFilePath : String)
  | saveCopyAs (o : WriteOutcome) (filePath : String)
  | rename (o : WriteOutcome) (removeOk : Bool) (newFilePath : String)
  | reload (io : ReadFaults)
  | checkFileForStateChange
  | moveToTrash (ok : Bool)

/-- The system after the call `op`; `none` when the fuel does not reach the end of a load. -/
def Op.run (penv : PathEnv) (tenv : TextEnv) (chunkSize fuel : Nat) (op : Op) (s : Sys) :
    Option Sys :=
  match op with
  | Op.save o => some (NotepadNext.save penv o s).2
  | Op.saveAs o newFilePath => some (NotepadNext.saveAs penv o newFilePath s).2
  | Op.saveCopyAs o filePath => some (NotepadNext.saveCopyAs penv o filePath s).2
  | Op.rename o removeOk newFilePath => some (NotepadNext.rename penv o removeOk newFilePath s).2
  | Op.reload io => NotepadNext.reload penv tenv chunkSize fuel io s
  | Op.checkFileForStateChange => some (NotepadNext.checkFileForStateChange penv s).2
  | Op.moveToTrash ok => some (NotepadNext.moveToTrash penv ok s).2

/-- What a load leaves alone: the binding of the document, the disk and its clock. -/
def Sys.frame (s : Sys) : String × BufferType × QFileInfo × Option Nat × Disk × Nat :=
  (s.editor.name, s.editor.bufferType, s.editor.fileInfo, s.editor.modifiedTime, s.disk, s.clock)

/-! ## Example platform and documents -/

/-- A platform with one home directory: `notes.txt`, `./notes.txt` and `/home/u/./notes.txt` are
spellings of `/home/u/notes.txt`; every other path is already canonical. -/
def homePaths : PathEnv where
  absolute := fun p =>
    if p = "notes.txt" ∨ p = "./notes.txt" then "/home/u/notes.txt" else p
  canonical := fun p =>
    if p = "notes.txt" ∨ p = "./notes.txt" ∨ p = "/home/u/./notes.txt" then "/home/u/notes.txt"
    else p
  fileName := fun p =>
    if p = "/home/u/notes.txt" ∨ p = "/home/u/./notes.txt" then "notes.txt"
    else if p = "/home/u/copy.txt" then "copy.txt" else p

/-- UTF-8 bytes of one code point. -/
def utf8Encode (c : Nat) : List Nat :=
  if c < 0x80 then [c]
  else if c < 0x800 then [0xC0 + c / 64, 0x80 + c % 64]
  else if c < 0x10000 then [0xE0 + c / 4096, 0x80 + c / 64 % 64, 0x80 + c % 64]
  else [0xF0 + c / 262144, 0x80 + c / 4096 % 64, 0x80 + c / 64 % 64, 0x80 + c % 64]

def isHighSurrogate (u : Nat) : Bool :=
  0xD800 ≤ u && u < 0xDC00

def isLowSurrogate (u : Nat) : Bool :=
  0xDC00 ≤ u && u < 0xE000

/-- The stateless `QString::toUtf8()` of Qt 5 on UTF-16 code units: a surrogate pair becomes
one four-byte sequence, a surrogate without its partner becomes `?`. -/
def qtToUtf8 : List Nat → List Nat
  | [] => []
  | [u] => if isHighSurrogate u || isLowSurrogate u then [63] else utf8Encode u
  | u :: l :: rest =>
      if isHighSurrogate u && isLowSurrogate l then
        utf8Encode (0x10000 + (u - 0xD800) * 1024 + (l - 0xDC00)) ++ qtToUtf8 rest
      else if isHighSurrogate u || isLowSurrogate u then
        63 :: qtToUtf8 (l :: rest)
      else
        utf8Encode u ++ qtToUtf8 (l :: rest)

/-- The Latin-1 codec: every byte is its own code unit, nothing is carried. -/
def latin1 : QTextCodec where
  name := "ISO-8859-1"
  toUnicode := fun state chunk => (chunk.map (fun b => b % 256), state)

/-- Length of the UTF-8 sequence that the byte `lead` opens; `0` when it opens none. -/
def utf8Need (lead : Nat) : Nat :=
  if lead < 0x80 then 1
  else if 0xC2 ≤ lead ∧ lead < 0xE0 then 2
  else if 0xE0 ≤ lead ∧ lead < 0xF0 then 3
  else if 0xF0 ≤ lead ∧ lead < 0xF5 then 4
  else 0

/-- Code point of a complete UTF-8 sequence; U+FFFD when the sequence names a surrogate or a
value past U+10FFFF. -/
def utf8CodePoint (bytes : List Nat) : Nat :=
  let c := match bytes with
    | [a] => a
    | [a, b] => a % 32 * 64 + b % 64
    | [a, b, c] => a % 16 * 4096 + b % 64 * 64 + c % 64
    | [a, b, c, d] => a % 8 * 262144 + b % 64 * 4096 + c % 64 * 64 + d % 64
    | _ => 0xFFFD
  if (0xD800 ≤ c ∧ c < 0xE000) ∨ 0x10FFFF < c then 0xFFFD else c

/-- UTF-16 code units of one code point. -/
def utf16Units (c : Nat) : List Nat :=
  if c < 0x10000 then [c] else [0xD800 + (c - 0x10000) / 1024, 0xDC00 + (c - 0x10000) % 1024]

/-- A byte met with no sequence open. -/
def utf8Open (acc : List Nat × ConverterState) (b : Nat) : List Nat × ConverterState :=
  if utf8Need b = 0 then (acc.1 ++ [0xFFFD], { acc.2 with remaining := [] })
  else if utf8Need b = 1 then (acc.1 ++ [b], { acc.2 with remaining := [] })
  else (acc.1, { acc.2 with remaining := [b] })

/-- One byte through the UTF-8 decoder: an open sequence is continued and emitted when
complete, or replaced by U+FFFD when the byte does not continue it. -/
def utf8Step (acc : List Nat × ConverterState) (b : Nat) : List Nat × ConverterState :=
  match acc.2.remaining with
  | [] => utf8Open acc b
  | lead :: conts =>
      if 0x80 ≤ b ∧ b < 0xC0 then
        if conts.length + 2 = utf8Need lead then
          (acc.1 ++ utf16Units (utf8CodePoint (lead :: conts ++ [b])),
            { acc.2 with remaining := [] })
        else
          (acc.1, { acc.2 with remaining := lead :: conts ++ [b] })
      else
        utf8Open (acc.1 ++ [0xFFFD], acc.2) b

/-- The UTF-8 codec: an incomplete trailing sequence is carried to the next call. -/
def utf8 : QTextCodec where
  name := "UTF-8"
  toUnicode := fun state chunk => chunk.foldl utf8Step ([], state)

/-- One byte through the UTF-16LE decoder: two bytes make one code unit, a leading byte-order
mark is dropped, an odd byte is carried to the next call. -/
def utf16leStep (acc : List Nat × ConverterState) (b : Nat) : List Nat × ConverterState :=
  match acc.2.remaining with
  | [] => (acc.1, { acc.2 with remaining := [b % 256] })
  | lo :: _ =>
      if !acc.2.headerDone && lo + 256 * (b % 256) == 0xFEFF then (acc.1, ⟨true, []⟩)
      else (acc.1 ++ [lo + 256 * (b % 256)], ⟨true, []⟩)

/-- The UTF-16LE codec. -/
def utf16le : QTextCodec where
  name := "UTF-16LE"
  toUnicode := fun state chunk => chunk.foldl utf16leStep ([], state)

/-- Whether the sample decodes as UTF-8 without a replacement; a sequence cut off by the end of
the sample does not count against it. -/
def validUtf8 (sample : List Nat) : Bool :=
  !(utf8.toUnicode ⟨false, []⟩ sample).1.contains 0xFFFD

/-- A text platform with three codecs. The detector answers from the sample it is given:
`UTF-16LE` on that byte-order mark, `ASCII` when every byte is below 128, `UTF-8` when the
sample is valid UTF-8, `ISO-8859-1` otherwise. The registry has no codec called `ASCII`, so a
plain ASCII sample falls back to `codecForUtfText`, which answers ISO-8859-1 unless the sample
opens with a byte-order mark. -/
def qtText : TextEnv where
  uchardet_handle_data := fun _ => 0
  uchardet_get_charset := fun sample =>
    if sample.take 2 = [0xFF, 0xFE] then "UTF-16LE"
    else if sample.all (fun b => b < 128) then "ASCII"
    else if validUtf8 sample then "UTF-8"
    else "ISO-8859-1"
  codecForName := fun n =>
    if n = "UTF-16LE" then some utf16le
    else if n = "UTF-8" then some utf8
    else if n = "ISO-8859-1" then some latin1
    else none
  codecForUtfText := fun ba => if ba.take 2 = [0xFF, 0xFE] then utf16le else latin1
  toUtf8 := qtToUtf8

/-- The UTF-16 code units `l` are whole characters: each unit is outside the surrogate range
or is the high half of a pair directly followed by its low half. -/
inductive WholeChars : List Nat → Prop where
  | nil : WholeChars []
  | unit (u : Nat) (t : List Nat) (hh : isHighSurrogate u = false)
      (hl : isLowSurrogate u = false) (ht : WholeChars t) : WholeChars (u :: t)
  | pair (h l : Nat) (t : List Nat) (hh : isHighSurrogate h = true)
      (hl : isLowSurrogate l = true) (ht : WholeChars t) : WholeChars (h :: l :: t)

/-- An empty buffer bound to `/home/u/notes.txt`, which holds `data` on disk. -/
def emptyBufferOn (data : List Nat) : Sys :=
  { editor := { name := "notes.txt", bufferType := BufferType.File,
                fileInfo := ⟨"/home/u/notes.txt"⟩, modifiedTime := some 3,
                text := [], status := SC_STATUS_OK, undoCollection := true,
                signalsBlocked := false },
    disk := [("/home/u/notes.txt", ⟨data, 3⟩)], clock := 7, log := [] }

/-- A new, never saved document holding `hi`. -/
def untitled : Sys :=
  { editor := { ScintillaNext.new "New 1" with text := [104, 105] },
    disk := [], clock := 7, log := [] }

/-- A document bound to `/home/u/notes.txt`, in sync with the file on disk. -/
def opened : Sys :=
  { editor := { name := "notes.txt", bufferType := BufferType.File,
                fileInfo := ⟨"/home/u/notes.txt"⟩, modifiedTime := some 3,
                text := [104, 105], status := SC_STATUS_OK, undoCollection := true,
                signalsBlocked := false },
    disk := [("/home/u/notes.txt", ⟨[104, 105], 3⟩)], clock := 7, log := [] }

/-- The document `opened` after another program has replaced its file by `abc`. -/
def openedStale : Sys :=
  { opened with disk := [("/home/u/notes.txt", ⟨[97, 98, 99], 4⟩)] }

/-- A document bound to `/home/u/notes.txt` whose file has been deleted and reported so. -/
def vanished : Sys :=
  { editor := { name := "notes.txt", bufferType := BufferType.FileMissing,
                fileInfo := ⟨"/home/u/notes.txt"⟩, modifiedTime := some 3,
                text := [104, 105], status := SC_STATUS_OK, undoCollection := true,
                signalsBlocked := false },
    disk := [], clock := 7, log := [] }

/-! ## Vocabulary of the specification -/

/-- The transition table of the file-state tracker, as the specification words it: `e` is
"the path exists on disk", `m` is "the modification time equals `lastKnownModifiedTime`". -/
def transitionTable (from_ : BufferType) (e m : Bool) : FileStateChange × BufferType :=
  match from_, e, m with
  | BufferType.Temporary, _, _ => (FileStateChange.NoChange, BufferType.Temporary)
  | BufferType.File, false, _ => (FileStateChange.Deleted, BufferType.FileMissing)
  | BufferType.File, true, false => (FileStateChange.Modified, BufferType.File)
  | BufferType.File, true, true => (FileStateChange.NoChange, BufferType.File)
  | BufferType.FileMissing, true, _ => (FileStateChange.Restored, BufferType.File)
  | BufferType.FileMissing, false, _ => (FileStateChange.NoChange, BufferType.FileMissing)

/-- The effects `l` commit nothing: no save point is marked, no file is removed, and neither
`saved` nor `renamed` is announced. -/
def CommitsNothing (l : List Effect) : Prop :=
  Effect.sci SciCall.setSavePoint ∉ l ∧ (∀ p, Effect.disk (DiskAction.remove p) ∉ l)
    ∧ Effect.emit Signal.saved ∉ l ∧ Effect.emit Signal.renamed ∉ l

/-- The result `r` of an operation started in `before` is a clean failure: it returns `false`,
every field of the document (path, name, `bufferType`, `modifiedTime`, text) and the disk are as
before, and the effects commit nothing. -/
def FailsCleanly (before : Sys) (r : Bool × Sys) : Prop :=
  r.1 = false ∧ r.2.editor = before.editor ∧ r.2.disk = before.disk
    ∧ CommitsNothing (r.2.since before)

/-- The effective path changed, in the words of the specification: the document was
`Temporary`, or `newPath` denotes a different file than the one the document was bound to. -/
def effectivePathChanged (env : PathEnv) (s : Sys) (newPath : String) : Bool :=
  s.editor.bufferType = BufferType.Temporary
    || env.canonical newPath ≠ env.canonical s.editor.fileInfo.file

/-- The decoder of `codec` is streaming at the level of UTF-16 code units: decoding `a ++ b`
gives the units of `a` followed by the units of `b` decoded with the state carried over from
`a`, and ends in the same state. -/
def DecoderStreaming (codec : QTextCodec) : Prop :=
  ∀ (state : ConverterState) (a b : List Nat),
    codec.toUnicode state (a ++ b)
      = ((codec.toUnicode state a).1 ++ (codec.toUnicode (codec.toUnicode state a).2 b).1,
          (codec.toUnicode (codec.toUnicode state a).2 b).2)

/-- The cut between the code units `a` and `b` splits a surrogate pair: `a` ends in a high
surrogate and `b` starts with a low one. -/
def splitsPair (a b : List Nat) : Bool :=
  match a.getLast?, b.head? with
  | some h, some l => isHighSurrogate h && isLowSurrogate l
  | _, _ => false

/-- The function `toUtf8` converts a text piece by piece wherever the cut splits no surrogate
pair. -/
def PiecewiseOutsidePairs (toUtf8 : List Nat → List Nat) : Prop :=
  ∀ a b : List Nat, splitsPair a b = false → toUtf8 (a ++ b) = toUtf8 a ++ toUtf8 b

/-- The run that reads `P` in chunks of `chunkSize`, starting with the decoder in `state`,
reaches the end of `P` within `fuel` passes, and at none of its chunk boundaries do the units
decoded from the chunk before it and the units decoded from the rest of `P` split a surrogate
pair. -/
def keepsPairsWhole (codec : QTextCodec) (chunkSize : Nat) :
    Nat → ConverterState → List Nat → Bool
  | 0, _, _ => false
  | fuel + 1, state, P =>
      if (P.drop chunkSize).isEmpty then true
      else
        !splitsPair (codec.toUnicode state (P.take chunkSize)).1
            (codec.toUnicode (codec.toUnicode state (P.take chunkSize)).2
              (P.drop chunkSize)).1
          && keepsPairsWhole codec chunkSize fuel
              (codec.toUnicode state (P.take chunkSize)).2 (P.drop chunkSize)

/-- Some `qWarning` is among the effects `l`. -/
def warningSurfaced (l : List Effect) : Bool :=
  l.any (fun e => match e with
    | Effect.warn _ => true
    | _ => false)

/-! ## Theorems -/

/-! ### The file-state tracker -/

/-- C1: `checkFileForStateChange` implements the transition table exactly. With
`e` = the bound path exists on disk and `m` = the file's modification time equals the stored
`modifiedTime`, the reported event and the new `bufferType` are the table's entry for the old
`bufferType`, `e` and `m`. -/
theorem checkFileForStateChange_table (env : PathEnv) (s : Sys) :
    ((checkFileForStateChange env s).1, (checkFileForStateChange env s).2.editor.bufferType)
      = transitionTable s.editor.bufferType
          (QFileInfo.exists env s.disk s.editor.fileInfo)
          (decide (QFileInfo.lastModified env s.disk s.editor.fileInfo
            = s.editor.modifiedTime)) := by
  have hcomm : (s.editor.modifiedTime = QFileInfo.lastModified env s.disk s.editor.fileInfo)
      ↔ (QFileInfo.lastModified env s.disk s.editor.fileInfo = s.editor.modifiedTime) :=
    eq_comm
  unfold checkFileForStateChange transitionTable fileTimestamp
  cases hb : s.editor.bufferType <;>
    cases he : QFileInfo.exists env s.disk s.editor.fileInfo <;>
    by_cases hm : QFileInfo.lastModified env s.disk s.editor.fileInfo = s.editor.modifiedTime <;>
    simp [hm, hcomm, hb, Sys.say]

/-! ### Save, save-as, save-copy-as, rename -/

/-- C2: failure atomicity of `save`, `saveAs` and `rename`. If the write does not commit, each of
the three returns `false`, leaves the document (path, name, `bufferType`, `modifiedTime`) and
the disk unchanged, marks no save point, removes no file, and emits neither `saved` nor
`renamed`. -/
theorem write_failure_is_atomic (env : PathEnv) (o : WriteOutcome)
    (h : o ≠ WriteOutcome.committed) (removeOk : Bool) (newFilePath : String) (s : Sys) :
    FailsCleanly s (save env o s) ∧ FailsCleanly s (saveAs env o newFilePath s)
      ∧ FailsCleanly s (rename env o removeOk newFilePath s) := by
  cases o with
  | committed => exact absurd rfl h
  | openFailed =>
      refine ⟨?_, ?_, ?_⟩ <;>
        simp [FailsCleanly, CommitsNothing, save, saveAs, rename, saveCopyAs, writeToDisk,
          Sys.say, Sys.since]
  | commitFailed =>
      refine ⟨?_, ?_, ?_⟩ <;>
        simp [FailsCleanly, CommitsNothing, save, saveAs, rename, saveCopyAs, writeToDisk,
          Sys.say, Sys.since]

/-- Witness of C2: the three operations on the document `opened` when the file cannot be
opened for writing. -/
theorem write_failure_is_atomic_witness :
    WriteOutcome.openFailed ≠ WriteOutcome.committed
      ∧ FailsCleanly opened (save homePaths WriteOutcome.openFailed opened)
      ∧ FailsCleanly opened (saveAs homePaths WriteOutcome.openFailed "/home/u/copy.txt" opened)
      ∧ FailsCleanly opened
          (rename homePaths WriteOutcome.openFailed true "/home/u/copy.txt" opened) :=
  ⟨by decide,
    write_failure_is_atomic homePaths WriteOutcome.openFailed (by decide) true
      "/home/u/copy.txt" opened⟩

/-- C3: `saveAs` on a `Temporary` document whose write commits returns `true`, leaves the
document in `bufferType = File`, and emits `saved` exactly once and `renamed` exactly once. -/
theorem saveAs_temporary_promotes (env : PathEnv) (newFilePath : String) (s : Sys)
    (h : s.editor.bufferType = BufferType.Temporary) :
    (saveAs env WriteOutcome.committed newFilePath s).1 = true
      ∧ (saveAs env WriteOutcome.committed newFilePath s).2.editor.bufferType = BufferType.File
      ∧ (((saveAs env WriteOutcome.committed newFilePath s).2.since s).count
            (Effect.emit Signal.saved) = 1)
      ∧ (((saveAs env WriteOutcome.committed newFilePath s).2.since s).count
            (Effect.emit Signal.renamed) = 1) := by
  simp [saveAs, writeToDisk, setFileInfo, updateTimestamp, setSavePoint, Sys.say, Sys.since, h]

/-- Witness of C3: the document `untitled` saved as `notes.txt`. -/
theorem saveAs_temporary_promotes_witness :
    untitled.editor.bufferType = BufferType.Temporary
      ∧ (saveAs homePaths WriteOutcome.committed "notes.txt" untitled).1 = true
      ∧ (saveAs homePaths WriteOutcome.committed "notes.txt" untitled).2.editor.bufferType
          = BufferType.File
      ∧ (((saveAs homePaths WriteOutcome.committed "notes.txt" untitled).2.since untitled).count
            (Effect.emit Signal.saved) = 1)
      ∧ (((saveAs homePaths WriteOutcome.committed "notes.txt" untitled).2.since untitled).count
            (Effect.emit Signal.renamed) = 1) :=
  ⟨rfl, saveAs_temporary_promotes homePaths "notes.txt" untitled rfl⟩

/-- C4, as stated, fails: the document is bound to `/home/u/notes.txt`, which exists, and is
saved under the spelling `/home/u/./notes.txt` of that same file. The effective path did not
change, the save succeeds, and `renamed` is emitted all the same. -/
theorem saveAs_same_file_other_spelling_emits_renamed :
    effectivePathChanged homePaths opened "/home/u/./notes.txt" = false
      ∧ (saveAs homePaths WriteOutcome.committed "/home/u/./notes.txt" opened).1 = true
      ∧ Effect.emit Signal.renamed
          ∈ (saveAs homePaths WriteOutcome.committed "/home/u/./notes.txt" opened).2.since
              opened := by
  decide

/-- C4, amended: a `saveAs` whose write commits returns `true`, emits `saved` exactly once, and
emits `renamed` (once) exactly when the document was `Temporary` or the string `newFilePath`
differs from `fileInfo.canonicalFilePath()` as it was before the call (which is empty when the
bound file does not exist). The argument is compared as given, not canonicalised. -/
theorem saveAs_renamed_iff (env : PathEnv) (newFilePath : String) (s : Sys) :
    (saveAs env WriteOutcome.committed newFilePath s).1 = true
      ∧ ((saveAs env WriteOutcome.committed newFilePath s).2.since s).count
            (Effect.emit Signal.saved) = 1
      ∧ ((saveAs env WriteOutcome.committed newFilePath s).2.since s).count
            (Effect.emit Signal.renamed)
          = (if s.editor.bufferType = BufferType.Temporary
                ∨ QFileInfo.canonicalFilePath env s.disk s.editor.fileInfo ≠ newFilePath
             then 1 else 0) := by
  by_cases hc : s.editor.bufferType = BufferType.Temporary
      ∨ QFileInfo.canonicalFilePath env s.disk s.editor.fileInfo ≠ newFilePath
  · rcases hc with hc | hc <;>
      simp [saveAs, writeToDisk, setFileInfo, updateTimestamp, setSavePoint, Sys.say,
        Sys.since, hc]
  · have h1 : ¬ s.editor.bufferType = BufferType.Temporary := fun h => hc (Or.inl h)
    have h2 : QFileInfo.canonicalFilePath env s.disk s.editor.fileInfo = newFilePath := by
      by_contra h
      exact hc (Or.inr h)
    simp [saveAs, writeToDisk, setFileInfo, updateTimestamp, setSavePoint, Sys.say,
      Sys.since, h1, h2]

/-- C5: `saveCopyAs` is a pure export. Whatever the outcome of the write, the document (path,
name, `bufferType`, `modifiedTime`, text) is unchanged, no save point is marked, neither `saved`
nor `renamed` is emitted, and the value returned is exactly whether the write committed. -/
theorem saveCopyAs_is_pure_export (env : PathEnv) (o : WriteOutcome) (filePath : String)
    (s : Sys) :
    (saveCopyAs env o filePath s).2.editor = s.editor
      ∧ Effect.sci SciCall.setSavePoint ∉ (saveCopyAs env o filePath s).2.since s
      ∧ Effect.emit Signal.saved ∉ (saveCopyAs env o filePath s).2.since s
      ∧ Effect.emit Signal.renamed ∉ (saveCopyAs env o filePath s).2.since s
      ∧ (saveCopyAs env o filePath s).1 = decide (o = WriteOutcome.committed) := by
  cases o <;> simp [saveCopyAs, writeToDisk, Sys.say, Sys.since]

/-- C6, as stated, fails: the document bound to `/home/u/notes.txt` is renamed to
`/home/u/copy.txt`, the copy commits and the removal of the old file fails. The call returns
`true` with the document bound to the new path in state `File` and the old file still on
disk, but nothing warns about the surviving file. -/
theorem rename_removal_failure_is_silent :
    (rename homePaths WriteOutcome.committed false "/home/u/copy.txt" opened).1 = true
      ∧ (rename homePaths WriteOutcome.committed false "/home/u/copy.txt"
            opened).2.editor.fileInfo = ⟨"/home/u/copy.txt"⟩
      ∧ (rename homePaths WriteOutcome.committed false "/home/u/copy.txt"
            opened).2.editor.bufferType = BufferType.File
      ∧ QFile.exists homePaths
          (rename homePaths WriteOutcome.committed false "/home/u/copy.txt" opened).2.disk
          "/home/u/notes.txt" = true
      ∧ warningSurfaced
          ((rename homePaths WriteOutcome.committed false "/home/u/copy.txt" opened).2.since
            opened) = false := by
  decide

/-- C6, amended: when the copy of `rename` commits and the removal of the old file fails, the
call still returns `true` and the document ends bound to `newFilePath` (made absolute) with
`bufferType = File`; the result of the removal is dropped, so the effects are exactly
`aboutToSave`, the write, the removal attempt, the save point, `saved`, `renamed`, and no
warning is among them. -/
theorem rename_survives_failed_removal (env : PathEnv) (newFilePath : String) (s : Sys) :
    (rename env WriteOutcome.committed false newFilePath s).1 = true
      ∧ (rename env WriteOutcome.committed false newFilePath s).2.editor.fileInfo
          = ⟨env.absolute newFilePath⟩
      ∧ (rename env WriteOutcome.committed false newFilePath s).2.editor.bufferType
          = BufferType.File
      ∧ (∃ oldPath, (rename env WriteOutcome.committed false newFilePath s).2.since s
          = [Effect.emit Signal.aboutToSave, Effect.disk (DiskAction.write newFilePath),
             Effect.disk (DiskAction.remove oldPath), Effect.sci SciCall.setSavePoint,
             Effect.emit Signal.saved, Effect.emit Signal.renamed])
      ∧ warningSurfaced ((rename env WriteOutcome.committed false newFilePath s).2.since s)
          = false := by
  simp [rename, saveCopyAs, writeToDisk, QFile.remove, setFileInfo, updateTimestamp,
    setSavePoint, Sys.say, Sys.since, warningSurfaced]

/-! ### The loader: what it leaves alone, and that it ends -/

theorem appendText_frame (data : List Nat) (st : LoadState) :
    (appendText data st).sys.frame = st.sys.frame
      ∧ (appendText data st).file = st.file := by
  unfold appendText
  split <;> simp [Sys.frame, Sys.say]

theorem detectEncoding_frame (tenv : TextEnv) (chunk : List Nat) (st : LoadState) :
    (detectEncoding tenv chunk st).sys.frame = st.sys.frame
      ∧ (detectEncoding tenv chunk st).file = st.file := by
  unfold detectEncoding
  split <;> split <;> (try split) <;> simp [Sys.frame, Sys.say, LoadState.say]

theorem decodeAndAppend_frame (tenv : TextEnv) (chunk : List Nat) (st : LoadState) :
    (decodeAndAppend tenv chunk st).sys.frame = st.sys.frame
      ∧ (decodeAndAppend tenv chunk st).file = st.file := by
  unfold decodeAndAppend
  split
  · exact ⟨rfl, rfl⟩
  · simp [appendText_frame]

theorem readChunk_frame (tenv : TextEnv) (chunkSize : Nat) (st : LoadState) :
    (readChunk tenv chunkSize st).sys.frame = st.sys.frame
      ∧ (readChunk tenv chunkSize st).file = (QFile.read st.file chunkSize).2.2 := by
  unfold readChunk
  simp only [decodeAndAppend_frame]
  split
  · simp only [detectEncoding_frame]
    simp [LoadState.say, Sys.frame, Sys.say]
  · simp [LoadState.say, Sys.frame, Sys.say]

theorem readLoop_frame (tenv : TextEnv) (chunkSize : Nat) :
    ∀ (fuel : Nat) (st st' : LoadState),
      readLoop tenv chunkSize fuel st = some st' → st'.sys.frame = st.sys.frame := by
  intro fuel
  induction fuel with
  | zero => intro st st' h; simp [readLoop] at h
  | succ n ih =>
      intro st st' h
      simp only [readLoop] at h
      split at h
      · rw [ih _ _ h, (readChunk_frame tenv chunkSize st).1]
      · simp only [Option.some.injEq] at h
        rw [← h, (readChunk_frame tenv chunkSize st).1]

theorem QFile_read_measure (f : QFile) (k : Nat) (hk : 0 < k)
    (h : QFile.atEnd (QFile.read f k).2.2 = false) :
    (QFile.read f k).2.2.readFaults.length + (QFile.read f k).2.2.pending.length
      < f.readFaults.length + f.pending.length := by
  unfold QFile.read at h ⊢
  split <;> simp_all [QFile.atEnd] <;> omega

theorem readLoop_terminates (tenv : TextEnv) (chunkSize : Nat) (hk : 0 < chunkSize) :
    ∀ (fuel : Nat) (st : LoadState),
      st.file.readFaults.length + st.file.pending.length < fuel →
        ∃ st', readLoop tenv chunkSize fuel st = some st' := by
  intro fuel
  induction fuel with
  | zero => intro st h; omega
  | succ n ih =>
      intro st h
      simp only [readLoop]
      split
      · rename_i hc
        apply ih
        simp only [Bool.and_eq_true, Bool.not_eq_true'] at hc
        have hm := QFile_read_measure st.file chunkSize hk
          (by rw [← (readChunk_frame tenv chunkSize st).2]; exact hc.1)
        rw [(readChunk_frame tenv chunkSize st).2]
        omega
      · exact ⟨_, rfl⟩

theorem readFromDisk_opened (penv : PathEnv) (tenv : TextEnv) (chunkSize fuel : Nat)
    (io : ReadFaults) (fileName : String) (s : Sys)
    (he : QFile.exists penv s.disk fileName = true) (ho : io.openOk = true) :
    readFromDisk penv tenv chunkSize fuel io fileName s
      = (readLoop tenv chunkSize fuel (loopEntry penv io fileName s)).map loopExit := by
  unfold readFromDisk loopEntry loopExit
  simp only [he, ho, Bool.not_true, Bool.false_eq_true, if_false]
  cases readLoop tenv chunkSize fuel _ with
  | none => rfl
  | some st =>
      simp only [Option.map_some']
      split
      · rfl
      · split <;> rfl

theorem loopEntry_frame (penv : PathEnv) (io : ReadFaults) (fileName : String) (s : Sys) :
    (loopEntry penv io fileName s).sys.frame = s.frame := by
  unfold loopEntry allocate
  split <;> rfl

theorem loopExit_frame (st : LoadState) : (loopExit st).2.frame = st.sys.frame := by
  unfold loopExit
  simp only []
  split
  · rfl
  · split <;> rfl

theorem readFromDisk_frame (penv : PathEnv) (tenv : TextEnv) (chunkSize fuel : Nat)
    (io : ReadFaults) (fileName : String) (s : Sys) (r : Bool × Sys)
    (h : readFromDisk penv tenv chunkSize fuel io fileName s = some r) :
    r.2.frame = s.frame := by
  by_cases he : QFile.exists penv s.disk fileName = true
  · by_cases ho : io.openOk = true
    · rw [readFromDisk_opened penv tenv chunkSize fuel io fileName s he ho] at h
      cases hl : readLoop tenv chunkSize fuel (loopEntry penv io fileName s) with
      | none => simp [hl] at h
      | some st =>
          simp only [hl, Option.map_some', Option.some.injEq] at h
          rw [← h, loopExit_frame, readLoop_frame tenv chunkSize fuel _ st hl, loopEntry_frame]
    · simp only [readFromDisk, he, ho, Bool.not_true, Bool.false_eq_true, if_false,
        Bool.not_false, if_true, Option.some.injEq] at h
      rw [← h]; rfl
  · simp only [readFromDisk, he, Bool.not_false, if_true, Option.some.injEq] at h
    rw [← h]; rfl

theorem readFromDisk_terminates (penv : PathEnv) (tenv : TextEnv) (chunkSize : Nat)
    (hk : 0 < chunkSize) (io : ReadFaults) (fileName : String) (s : Sys) :
    ∃ N, ∀ fuel, N ≤ fuel →
      ∃ r, readFromDisk penv tenv chunkSize fuel io fileName s = some r := by
  refine ⟨(loopEntry penv io fileName s).file.readFaults.length
    + (loopEntry penv io fileName s).file.pending.length + 1, ?_⟩
  intro fuel hfuel
  by_cases he : QFile.exists penv s.disk fileName = true
  · by_cases ho : io.openOk = true
    · rw [readFromDisk_opened penv tenv chunkSize fuel io fileName s he ho]
      obtain ⟨st', hst'⟩ := readLoop_terminates tenv chunkSize hk fuel
        (loopEntry penv io fileName s) (by omega)
      exact ⟨loopExit st', by rw [hst']; rfl⟩
    · refine ⟨(false, s.say (Effect.warn Warning.openFailed)), ?_⟩
      simp only [readFromDisk, he, ho, Bool.not_true, Bool.false_eq_true, if_false,
        Bool.not_false, if_true]
  · refine ⟨(false, s.say (Effect.warn Warning.cannotReadDoesNotExist)), ?_⟩
    simp only [readFromDisk, he, Bool.not_false, if_true]

theorem reload_bufferType (penv : PathEnv) (tenv : TextEnv) (chunkSize fuel : Nat)
    (io : ReadFaults) (s s' : Sys) (h : reload penv tenv chunkSize fuel io s = some s') :
    s'.editor.bufferType = s.editor.bufferType := by
  unfold reload at h
  split at h
  · simp only [Option.some.injEq] at h
    rw [← h]
  · simp only [] at h
    split at h
    · exact absurd h (by simp)
    · rename_i s7 hr
      have hf := readFromDisk_frame _ _ _ _ _ _ _ _ hr
      simp only [Option.some.injEq] at h
      have hb : s7.editor.bufferType = s.editor.bufferType := by
        have := congrArg (fun x => x.2.1) hf
        simpa [Sys.frame, blockSignals, setUndoCollection, setText, emptyUndoBuffer, Sys.say]
          using this
      rw [← h, ← hb]
      rfl
    · rename_i s7 hr
      have hf := readFromDisk_frame _ _ _ _ _ _ _ _ hr
      simp only [Option.some.injEq] at h
      have hb : s7.editor.bufferType = s.editor.bufferType := by
        have := congrArg (fun x => x.2.1) hf
        simpa [Sys.frame, blockSignals, setUndoCollection, setText, emptyUndoBuffer, Sys.say]
          using this
      rw [← h, ← hb]

theorem reload_terminates (penv : PathEnv) (tenv : TextEnv) (chunkSize : Nat)
    (hk : 0 < chunkSize) (io : ReadFaults) (s : Sys) :
    ∃ N, ∀ fuel, N ≤ fuel → ∃ s', reload penv tenv chunkSize fuel io s = some s' := by
  by_cases he : QFile.exists penv s.disk
      (QFileInfo.canonicalFilePath penv s.disk s.editor.fileInfo) = true
  · obtain ⟨N, hN⟩ := readFromDisk_terminates penv tenv chunkSize hk io
      (QFileInfo.canonicalFilePath penv s.disk s.editor.fileInfo)
      (blockSignals s.editor.signalsBlocked (setUndoCollection true (setText []
        (emptyUndoBuffer (setUndoCollection false (blockSignals true s))))))
    refine ⟨N, fun fuel hfuel => ?_⟩
    obtain ⟨r, hr⟩ := hN fuel hfuel
    unfold reload
    simp only [he, Bool.not_true, Bool.false_eq_true, if_false]
    have hd : (blockSignals s.editor.signalsBlocked (setUndoCollection true (setText []
        (emptyUndoBuffer (setUndoCollection false (blockSignals true s)))))).disk = s.disk := rfl
    have hfi : (blockSignals s.editor.signalsBlocked (setUndoCollection true (setText []
        (emptyUndoBuffer (setUndoCollection false (blockSignals true s)))))).editor.fileInfo
          = s.editor.fileInfo := rfl
    rw [hd, hfi, hr]
    rcases r with ⟨b, s7⟩
    cases b
    · exact ⟨_, rfl⟩
    · exact ⟨_, rfl⟩
  · exact ⟨0, fun fuel _ => ⟨s, by simp only [reload, he, Bool.not_false, if_true]⟩⟩

/-! ### The loader without faults -/

theorem detectEncoding_eq (tenv : TextEnv) (chunk : List Nat) (st : LoadState) :
    ∃ log, detectEncoding tenv chunk st
      = { st with first_read := false,
                  decoder := some (chooseCodec tenv chunk).makeDecoder,
                  sys := { st.sys with log := log } } := by
  unfold detectEncoding chooseCodec
  split <;> split <;> (try split) <;> exact ⟨_, rfl⟩

theorem readChunk_clean (tenv : TextEnv) (chunkSize : Nat) (st : LoadState)
    (codec : QTextCodec) (state : ConverterState) (P text : List Nat)
    (h : CleanPass tenv chunkSize st codec state P text) :
    CleanPass tenv chunkSize (readChunk tenv chunkSize st) codec
        (decodeChunk tenv codec state (P.take chunkSize)).2 (P.drop chunkSize)
        (text ++ (decodeChunk tenv codec state (P.take chunkSize)).1)
      ∧ (readChunk tenv chunkSize st).first_read = false
      ∧ (readChunk tenv chunkSize st).bytesRead ≠ -1 := by
  obtain ⟨sys, file, appends, decoder, first_read, bytesRead⟩ := st
  obtain ⟨hfile, happ, hstat, htext, hdec⟩ := h
  simp only at hfile happ hstat htext hdec
  subst hfile happ htext
  have hchunk : List.take (Int.toNat ((P.take chunkSize).length : Nat)) (P.take chunkSize)
      = P.take chunkSize := by
    rw [Int.toNat_ofNat, List.take_length]
  have hneg : (((P.take chunkSize).length : Nat) : Int) ≠ -1 := by omega
  rcases hdec with ⟨hfirst, hcodec, hstate⟩ | ⟨hfirst, hdecoder⟩
  · subst hfirst hcodec hstate
    obtain ⟨log, hdet⟩ := detectEncoding_eq tenv (P.take chunkSize)
      ({ sys := sys, file := ⟨P.drop chunkSize, []⟩, appends := [], decoder := decoder,
         first_read := true, bytesRead := (((P.take chunkSize).length : Nat) : Int) :
           LoadState }.say
        (Effect.disk (DiskAction.read (((P.take chunkSize).length : Nat) : Int))))
    simp only [LoadState.say, Sys.say] at hdet
    simp only [readChunk, QFile.read, hchunk, if_true, LoadState.say, Sys.say]
    rw [hdet]
    simp only [decodeAndAppend, appendText, Sys.say, QTextCodec.makeDecoder, CleanPass]
    exact ⟨by simp [hstat], by simp, hneg⟩
  · subst hfirst hdecoder
    simp only [readChunk, QFile.read, hchunk, Bool.false_eq_true, if_false, decodeAndAppend,
      appendText, LoadState.say, Sys.say, CleanPass]
    exact ⟨by simp [hstat], by simp, hneg⟩

theorem readLoop_clean (tenv : TextEnv) (chunkSize : Nat) (codec : QTextCodec)
    (hdec : DecoderStreaming codec) (hutf8 : PiecewiseOutsidePairs tenv.toUtf8) :
    ∀ (fuel : Nat) (st : LoadState) (state : ConverterState) (P text : List Nat),
      CleanPass tenv chunkSize st codec state P text →
      keepsPairsWhole codec chunkSize fuel state P = true →
        ∃ st', readLoop tenv chunkSize fuel st = some st'
          ∧ st'.sys.editor.text = text ++ (decodeChunk tenv codec state P).1
          ∧ st'.sys.editor.status = SC_STATUS_OK ∧ st'.bytesRead ≠ -1 := by
  intro fuel
  induction fuel with
  | zero => intro st state P text _ hkeep; simp [keepsPairsWhole] at hkeep
  | succ n ih =>
      intro st state P text hclean hkeep
      obtain ⟨hnext, _, hbytes⟩ := readChunk_clean tenv chunkSize st codec state P text hclean
      have hfile := hnext.1
      have hstat := hnext.2.2.1
      have htext := hnext.2.2.2.1
      simp only [readLoop]
      by_cases hdrop : P.drop chunkSize = []
      · have hcond : (!QFile.atEnd (readChunk tenv chunkSize st).file
            && (readChunk tenv chunkSize st).sys.editor.status == SC_STATUS_OK) = false := by
          simp [hfile, QFile.atEnd, hdrop]
        rw [hcond]
        have htake : P.take chunkSize = P :=
          List.take_of_length_le (List.drop_eq_nil_iff.mp hdrop)
        refine ⟨_, rfl, ?_, hstat, hbytes⟩
        rw [htext, htake]
      · have hcond : (!QFile.atEnd (readChunk tenv chunkSize st).file
            && (readChunk tenv chunkSize st).sys.editor.status == SC_STATUS_OK) = true := by
          simp [hfile, QFile.atEnd, hdrop, hstat]
        rw [hcond]
        have hne : (P.drop chunkSize).isEmpty = false := by
          simpa [List.isEmpty_iff] using hdrop
        simp only [keepsPairsWhole, hne, Bool.false_eq_true, if_false, Bool.and_eq_true,
          Bool.not_eq_true'] at hkeep
        obtain ⟨hsplit, hrest⟩ := hkeep
        obtain ⟨st', hrun, htext', hstat', hbytes'⟩ :=
          ih (readChunk tenv chunkSize st) _ _ _ hnext hrest
        refine ⟨st', by simpa using hrun, ?_, hstat', hbytes'⟩
        rw [htext', List.append_assoc]
        have hwhole := hdec state (P.take chunkSize) (P.drop chunkSize)
        rw [List.take_append_drop] at hwhole
        simp only [decodeChunk]
        rw [hwhole]
        simp only []
        rw [hutf8 _ _ hsplit]

theorem readFromDisk_text (penv : PathEnv) (tenv : TextEnv) (chunkSize fuel : Nat)
    (fileName : String) (s : Sys) (C : List Nat)
    (he : QFile.exists penv s.disk fileName = true)
    (hC : ((Disk.find s.disk (penv.canonical fileName)).map FileEntry.data).getD [] = C)
    (hst : s.editor.status = SC_STATUS_OK)
    (hdec : DecoderStreaming (chooseCodec tenv (C.take chunkSize)))
    (hutf8 : PiecewiseOutsidePairs tenv.toUtf8)
    (hkeep : keepsPairsWhole (chooseCodec tenv (C.take chunkSize)) chunkSize fuel
      ⟨false, []⟩ C = true) :
    ∃ s', readFromDisk penv tenv chunkSize fuel ReadFaults.none fileName s = some (true, s')
      ∧ s'.editor.text = s.editor.text
          ++ (decodeChunk tenv (chooseCodec tenv (C.take chunkSize)) ⟨false, []⟩ C).1 := by
  rw [readFromDisk_opened penv tenv chunkSize fuel ReadFaults.none fileName s he rfl]
  have hclean : CleanPass tenv chunkSize (loopEntry penv ReadFaults.none fileName s)
      (chooseCodec tenv (C.take chunkSize)) ⟨false, []⟩ C s.editor.text := by
    refine ⟨?_, rfl, ?_, rfl, Or.inl ⟨rfl, rfl, rfl⟩⟩
    · simp [loopEntry, hC, ReadFaults.none]
    · simpa [loopEntry, ReadFaults.none, allocate, blockSignals, setUndoCollection, Sys.say]
        using hst
  obtain ⟨st', hrun, htext, hstat, hbytes⟩ :=
    readLoop_clean tenv chunkSize _ hdec hutf8 fuel _ _ _ _ hclean hkeep
  have h1 : (setUndoCollection true (blockSignals false st'.sys)).editor.status
      = SC_STATUS_OK := by
    simpa [setUndoCollection, blockSignals] using hstat
  refine ⟨(loopExit st').2, ?_, ?_⟩
  · rw [hrun]
    simp only [Option.map_some', Option.some.injEq]
    unfold loopExit
    simp only [h1, ne_eq, not_true_eq_false, if_false, hbytes]
  · unfold loopExit
    simp only [h1, ne_eq, not_true_eq_false, if_false, hbytes]
    simpa [setUndoCollection, blockSignals] using htext

theorem keepsPairsWhole_single_chunk (codec : QTextCodec) (fuel : Nat)
    (state : ConverterState) (C : List Nat) (hfuel : fuel ≠ 0) :
    keepsPairsWhole codec C.length fuel state C = true := by
  cases fuel with
  | zero => exact absurd rfl hfuel
  | succ n => simp [keepsPairsWhole]

/-! ### The converters of the model platform -/

theorem splitsPair_nil (b : List Nat) : splitsPair [] b = false := by
  simp [splitsPair]

theorem splitsPair_cons_cons (u l : Nat) (t b : List Nat) :
    splitsPair (u :: l :: t) b = splitsPair (l :: t) b := by
  simp [splitsPair, List.getLast?_cons_cons]

theorem qtToUtf8_piecewise_aux (n : Nat) :
    ∀ a b : List Nat, a.length ≤ n → splitsPair a b = false →
      qtToUtf8 (a ++ b) = qtToUtf8 a ++ qtToUtf8 b := by
  induction n using Nat.strong_induction_on with
  | _ n ih =>
      intro a b hlen hb
      match a, hlen, hb with
      | [], _, _ => simp [qtToUtf8]
      | [u], _, hb =>
          cases b with
          | nil => simp [qtToUtf8]
          | cons l rest =>
              have hp : (isHighSurrogate u && isLowSurrogate l) = false := by
                simpa [splitsPair] using hb
              by_cases hs : (isHighSurrogate u || isLowSurrogate u) = true
              · simp [qtToUtf8, hp, hs]
              · simp [qtToUtf8, hp, hs]
      | u :: l :: rest, hlen, hb =>
          rw [splitsPair_cons_cons] at hb
          simp only [List.length_cons] at hlen
          by_cases hpair : (isHighSurrogate u && isLowSurrogate l) = true
          · have hrest : splitsPair rest b = false := by
              cases rest with
              | nil => exact splitsPair_nil b
              | cons x xs =>
                  rw [splitsPair_cons_cons] at hb
                  exact hb
            have e : ∀ r : List Nat, qtToUtf8 (u :: l :: r)
                = utf8Encode (0x10000 + (u - 0xD800) * 1024 + (l - 0xDC00)) ++ qtToUtf8 r := by
              intro r
              simp [qtToUtf8, hpair]
            rw [List.cons_append, List.cons_append, e (rest ++ b), e rest,
              ih rest.length (by omega) rest b (le_refl _) hrest, List.append_assoc]
          · have htail := ih (l :: rest).length (by simp only [List.length_cons]; omega)
              (l :: rest) b (le_refl _) hb
            by_cases hs : (isHighSurrogate u || isLowSurrogate u) = true
            · have e : ∀ r : List Nat, qtToUtf8 (u :: l :: r) = 63 :: qtToUtf8 (l :: r) := by
                intro r
                simp [qtToUtf8, hpair, hs]
              rw [List.cons_append, List.cons_append, e (rest ++ b), e rest,
                ← List.cons_append, htail]
              simp
            · have e : ∀ r : List Nat, qtToUtf8 (u :: l :: r)
                  = utf8Encode u ++ qtToUtf8 (l :: r) := by
                intro r
                simp [qtToUtf8, hpair, hs]
              rw [List.cons_append, List.cons_append, e (rest ++ b), e rest,
                ← List.cons_append, htail, List.append_assoc]

theorem qtToUtf8_piecewise : PiecewiseOutsidePairs qtToUtf8 :=
  fun a b hb => qtToUtf8_piecewise_aux a.length a b (le_refl _) hb

theorem foldl_accumulates
    (step : List Nat × ConverterState → Nat → List Nat × ConverterState)
    (hstep : ∀ (acc : List Nat) (st : ConverterState) (b : Nat),
      step (acc, st) b = (acc ++ (step ([], st) b).1, (step ([], st) b).2)) :
    ∀ (l acc : List Nat) (st : ConverterState),
      l.foldl step (acc, st)
        = (acc ++ (l.foldl step ([], st)).1, (l.foldl step ([], st)).2) := by
  intro l
  induction l with
  | nil => intro acc st; simp
  | cons b t ih =>
      intro acc st
      simp only [List.foldl_cons]
      rw [hstep acc st b, ih (acc ++ (step ([], st) b).1) (step ([], st) b).2]
      have hnil : step ([], st) b = ((step ([], st) b).1, (step ([], st) b).2) := rfl
      rw [hnil, ih (step ([], st) b).1 (step ([], st) b).2, List.append_assoc]

theorem decoderStreaming_of_foldl (codec : QTextCodec)
    (step : List Nat × ConverterState → Nat → List Nat × ConverterState)
    (hcodec : ∀ (state : ConverterState) (chunk : List Nat),
      codec.toUnicode state chunk = chunk.foldl step ([], state))
    (hstep : ∀ (acc : List Nat) (st : ConverterState) (b : Nat),
      step (acc, st) b = (acc ++ (step ([], st) b).1, (step ([], st) b).2)) :
    DecoderStreaming codec := by
  intro state a b
  rw [hcodec, hcodec, List.foldl_append]
  have ha : a.foldl step ([], state)
      = ((a.foldl step ([], state)).1, (a.foldl step ([], state)).2) := rfl
  rw [ha, foldl_accumulates step hstep b, hcodec]

theorem utf16le_decoderStreaming : DecoderStreaming utf16le := by
  apply decoderStreaming_of_foldl utf16le utf16leStep (fun _ _ => rfl)
  intro acc st b
  unfold utf16leStep
  cases hrem : st.remaining with
  | nil => simp
  | cons lo rest =>
      simp only []
      split <;> simp

theorem latin1_decoderStreaming : DecoderStreaming latin1 := by
  intro state a b
  simp [latin1]

/-! ### The UTF-8 decoder of the model platform -/

theorem wholeChars_utf16Units (bytes : List Nat) :
    WholeChars (utf16Units (utf8CodePoint bytes)) := by
  have hc : ¬ (0xD800 ≤ utf8CodePoint bytes ∧ utf8CodePoint bytes < 0xE000)
      ∧ utf8CodePoint bytes ≤ 0x10FFFF := by
    unfold utf8CodePoint
    simp only []
    split <;> omega
  generalize utf8CodePoint bytes = c at hc
  unfold utf16Units
  split
  · refine WholeChars.unit c [] ?_ ?_ WholeChars.nil
    · simp only [isHighSurrogate, Bool.and_eq_false_imp, decide_eq_true_eq,
        decide_eq_false_iff_not]
      omega
    · simp only [isLowSurrogate, Bool.and_eq_false_imp, decide_eq_true_eq,
        decide_eq_false_iff_not]
      omega
  · refine WholeChars.pair _ _ [] ?_ ?_ WholeChars.nil
    · simp only [isHighSurrogate, Bool.and_eq_true, decide_eq_true_eq]
      omega
    · simp only [isLowSurrogate, Bool.and_eq_true, decide_eq_true_eq]
      omega

theorem utf8Open_fst (acc : List Nat × ConverterState) (b : Nat) :
    ∃ piece, (utf8Open acc b).1 = acc.1 ++ piece ∧ WholeChars piece
      ∧ (∀ acc0 : List Nat, utf8Open (acc0, acc.2) b
            = (acc0 ++ piece, (utf8Open acc b).2)) := by
  unfold utf8Open
  split
  · refine ⟨[0xFFFD], rfl, WholeChars.unit _ [] (by decide) (by decide) WholeChars.nil, ?_⟩
    intro acc0; rfl
  · split
    · rename_i h0 h1
      have hb : b < 0x80 := by
        unfold utf8Need at h1
        split at h1
        · assumption
        · split at h1
          · omega
          · split at h1
            · omega
            · split at h1 <;> omega
      refine ⟨[b], rfl, WholeChars.unit b [] ?_ ?_ WholeChars.nil, ?_⟩
      · simp only [isHighSurrogate, Bool.and_eq_false_imp, decide_eq_true_eq,
          decide_eq_false_iff_not]
        omega
      · simp only [isLowSurrogate, Bool.and_eq_false_imp, decide_eq_true_eq,
          decide_eq_false_iff_not]
        omega
      · intro acc0; rfl
    · refine ⟨[], by simp, WholeChars.nil, ?_⟩
      intro acc0; simp

theorem utf8Step_fst (acc : List Nat × ConverterState) (b : Nat) :
    ∃ piece, (utf8Step acc b).1 = acc.1 ++ piece ∧ WholeChars piece
      ∧ (∀ acc0 : List Nat, utf8Step (acc0, acc.2) b
            = (acc0 ++ piece, (utf8Step acc b).2)) := by
  obtain ⟨out, st⟩ := acc
  cases hrem : st.remaining with
  | nil =>
      have hstep : ∀ x : List Nat, utf8Step (x, st) b = utf8Open (x, st) b := by
        intro x
        simp [utf8Step, hrem]
      obtain ⟨piece, h1, h2, h3⟩ := utf8Open_fst (out, st) b
      refine ⟨piece, by rw [hstep]; exact h1, h2, ?_⟩
      intro acc0
      rw [hstep, hstep]
      exact h3 acc0
  | cons lead conts =>
      by_cases hcont : 0x80 ≤ b ∧ b < 0xC0
      · by_cases hdone : conts.length + 2 = utf8Need lead
        · have hstep : ∀ x : List Nat, utf8Step (x, st) b
              = (x ++ utf16Units (utf8CodePoint (lead :: conts ++ [b])),
                  { st with remaining := [] }) := by
            intro x
            simp [utf8Step, hrem, hcont, hdone]
          refine ⟨_, by rw [hstep], wholeChars_utf16Units _, ?_⟩
          intro acc0
          rw [hstep, hstep]
        · have hstep : ∀ x : List Nat, utf8Step (x, st) b
              = (x, { st with remaining := lead :: conts ++ [b] }) := by
            intro x
            simp [utf8Step, hrem, hcont, hdone]
          refine ⟨[], by rw [hstep]; simp, WholeChars.nil, ?_⟩
          intro acc0
          rw [hstep, hstep]
          simp
      · have hstep : ∀ x : List Nat, utf8Step (x, st) b
            = utf8Open (x ++ [0xFFFD], st) b := by
          intro x
          simp [utf8Step, hrem, hcont]
        obtain ⟨piece, h1, h2, h3⟩ := utf8Open_fst (out ++ [0xFFFD], st) b
        refine ⟨0xFFFD :: piece, ?_, ?_, ?_⟩
        · rw [hstep, h1]; simp
        · exact WholeChars.unit _ piece (by decide) (by decide) h2
        · intro acc0
          rw [hstep, hstep, h3 (acc0 ++ [0xFFFD])]
          simp

theorem utf8_decoderStreaming : DecoderStreaming utf8 := by
  apply decoderStreaming_of_foldl utf8 utf8Step (fun _ _ => rfl)
  intro acc st b
  obtain ⟨piece, _, _, hall⟩ := utf8Step_fst (acc, st) b
  have h0 := hall []
  have h1 := hall acc
  simp only [List.nil_append] at h0
  rw [h1, h0]

/-! ### Loading: read errors and chunk boundaries -/

/-- C7, at a failing input: the file holds `abc`, the first `read` returns `-1` and the second
delivers the three bytes. The loop tests only `atEnd()` and `status()`, so it does not stop at
the error: it reads again, the text is loaded, and `readFromDisk` returns `true`. -/
theorem readFromDisk_reads_on_after_read_error :
    (readFromDisk homePaths qtText CHUNK_SIZE 2 { ReadFaults.none with reads := [true] }
        "/home/u/notes.txt" (emptyBufferOn [97, 98, 99])).map
      (fun r => (r.1, r.2.editor.text, r.2.log.filter isRead))
    = some (true, [97, 98, 99],
        [Effect.disk (DiskAction.read (-1)), Effect.disk (DiskAction.read 3)]) := by
  decide

/-- C8, as stated, fails: the file holds `41 C3 A9` (`A` and a two-byte UTF-8 sequence). Read in
chunks of 1 the detector sees `41`, plain ASCII, for which there is no codec, and the fallback
is ISO-8859-1; read as one chunk it sees valid UTF-8. Both loads succeed, and the chunked one
leaves a text different from that of the single chunk. -/
theorem chunk_size_changes_detected_encoding :
    (readFromDisk homePaths qtText 1 4 ReadFaults.none "/home/u/notes.txt"
        (emptyBufferOn [0x41, 0xC3, 0xA9])).map (fun r => (r.1, r.2.editor.text))
      = some (true, [0x41, 0xC3, 0x83, 0xC2, 0xA9])
    ∧ (readFromDisk homePaths qtText 3 4 ReadFaults.none "/home/u/notes.txt"
        (emptyBufferOn [0x41, 0xC3, 0xA9])).map (fun r => (r.1, r.2.editor.text))
      = some (true, [0x41, 0xC3, 0xA9]) := by
  decide

/-- C8, amended: for every file content `C` and every chunk size (in particular from 1 to the
length of `C`), when no read and no buffer call fails, the load in chunks and the load in one
single chunk both succeed and leave the same text in the buffer, provided that (i) the codec
settled on from the first chunk is the codec settled on from the whole content, (ii) the
library converters keep their contracts, the decoder being streaming at the level of UTF-16
code units and `toUtf8` converting piece by piece wherever no surrogate pair is cut, and (iii)
this run, within its fuel, reaches the end of the file and none of its chunk boundaries cuts
the decoded text between the two halves of a surrogate pair. -/
theorem chunked_load_eq_single_chunk_load (penv : PathEnv) (tenv : TextEnv)
    (chunkSize fuel : Nat) (fileName : String) (s : Sys) (C : List Nat)
    (he : QFile.exists penv s.disk fileName = true)
    (hC : ((Disk.find s.disk (penv.canonical fileName)).map FileEntry.data).getD [] = C)
    (hst : s.editor.status = SC_STATUS_OK)
    (hdet : chooseCodec tenv (C.take chunkSize) = chooseCodec tenv C)
    (hdec : DecoderStreaming (chooseCodec tenv C))
    (hutf8 : PiecewiseOutsidePairs tenv.toUtf8)
    (hkeep : keepsPairsWhole (chooseCodec tenv C) chunkSize fuel ⟨false, []⟩ C = true) :
    ∃ sk s1,
      readFromDisk penv tenv chunkSize fuel ReadFaults.none fileName s = some (true, sk)
        ∧ readFromDisk penv tenv C.length fuel ReadFaults.none fileName s = some (true, s1)
        ∧ sk.editor.text = s1.editor.text := by
  have hfuel : fuel ≠ 0 := by
    intro h0
    rw [h0] at hkeep
    simp [keepsPairsWhole] at hkeep
  obtain ⟨sk, hk1, hk2⟩ := readFromDisk_text penv tenv chunkSize fuel fileName s C he hC hst
    (by rw [hdet]; exact hdec) hutf8 (by rw [hdet]; exact hkeep)
  obtain ⟨s1, h11, h12⟩ := readFromDisk_text penv tenv C.length fuel fileName s C he hC hst
    (by rw [List.take_length]; exact hdec) hutf8
    (by rw [List.take_length]; exact keepsPairsWhole_single_chunk _ fuel _ C hfuel)
  refine ⟨sk, s1, hk1, h11, ?_⟩
  rw [hk2, h12, hdet, List.take_length]

/-- Witness of C8: UTF-16LE with a byte-order mark and one surrogate pair, `FF FE 3D D8 00 DE`,
read in chunks of 3 and as one chunk. The boundary falls inside the code unit `3D D8`, the
decoder carries the odd byte over, and both halves of the pair come out of the second chunk. -/
theorem chunked_load_eq_single_chunk_load_witness :
    chooseCodec qtText ([0xFF, 0xFE, 0x3D, 0xD8, 0x00, 0xDE].take 3)
        = chooseCodec qtText [0xFF, 0xFE, 0x3D, 0xD8, 0x00, 0xDE]
      ∧ DecoderStreaming (chooseCodec qtText [0xFF, 0xFE, 0x3D, 0xD8, 0x00, 0xDE])
      ∧ PiecewiseOutsidePairs qtText.toUtf8
      ∧ keepsPairsWhole (chooseCodec qtText [0xFF, 0xFE, 0x3D, 0xD8, 0x00, 0xDE]) 3 3
          ⟨false, []⟩ [0xFF, 0xFE, 0x3D, 0xD8, 0x00, 0xDE] = true
      ∧ ∃ sk s1,
          readFromDisk homePaths qtText 3 3 ReadFaults.none "/home/u/notes.txt"
              (emptyBufferOn [0xFF, 0xFE, 0x3D, 0xD8, 0x00, 0xDE]) = some (true, sk)
            ∧ readFromDisk homePaths qtText [0xFF, 0xFE, 0x3D, 0xD8, 0x00, 0xDE].length 3
                ReadFaults.none "/home/u/notes.txt"
                (emptyBufferOn [0xFF, 0xFE, 0x3D, 0xD8, 0x00, 0xDE]) = some (true, s1)
            ∧ sk.editor.text = s1.editor.text :=
  ⟨rfl, utf16le_decoderStreaming, qtToUtf8_piecewise, by decide,
    chunked_load_eq_single_chunk_load homePaths qtText 3 3 "/home/u/notes.txt"
      (emptyBufferOn [0xFF, 0xFE, 0x3D, 0xD8, 0x00, 0xDE]) [0xFF, 0xFE, 0x3D, 0xD8, 0x00, 0xDE]
      (by decide) rfl rfl rfl utf16le_decoderStreaming qtToUtf8_piecewise (by decide)⟩

/-- The same content read in chunks of 4 is outside proviso (iii): detection and decoder agree,
but the decoder hands over the high surrogate at the end of the first chunk, and `toUtf8()`,
applied chunk by chunk, turns each half into `?`. -/
theorem surrogate_pair_split_between_chunks :
    chooseCodec qtText ([0xFF, 0xFE, 0x3D, 0xD8, 0x00, 0xDE].take 4)
        = chooseCodec qtText [0xFF, 0xFE, 0x3D, 0xD8, 0x00, 0xDE]
    ∧ keepsPairsWhole utf16le 4 4 ⟨false, []⟩ [0xFF, 0xFE, 0x3D, 0xD8, 0x00, 0xDE] = false
    ∧ (readFromDisk homePaths qtText 4 4 ReadFaults.none "/home/u/notes.txt"
        (emptyBufferOn [0xFF, 0xFE, 0x3D, 0xD8, 0x00, 0xDE])).map
          (fun r => (r.1, r.2.editor.text))
      = some (true, [63, 63])
    ∧ (readFromDisk homePaths qtText 6 4 ReadFaults.none "/home/u/notes.txt"
        (emptyBufferOn [0xFF, 0xFE, 0x3D, 0xD8, 0x00, 0xDE])).map
          (fun r => (r.1, r.2.editor.text))
      = some (true, [0xF0, 0x9F, 0x98, 0x80]) :=
  ⟨rfl, by decide, by decide, by decide⟩

/-- Plain UTF-16LE text, `FF FE 41 00 42 00 43 00`, read in chunks of 3 is inside the provisos:
every boundary falls inside a code unit, no surrogate is involved, and the chunked load and
the single-chunk load both leave `ABC`. -/
theorem utf16_text_in_chunks_of_three :
    chooseCodec qtText ([0xFF, 0xFE, 0x41, 0x00, 0x42, 0x00, 0x43, 0x00].take 3)
        = chooseCodec qtText [0xFF, 0xFE, 0x41, 0x00, 0x42, 0x00, 0x43, 0x00]
    ∧ keepsPairsWhole utf16le 3 4 ⟨false, []⟩ [0xFF, 0xFE, 0x41, 0x00, 0x42, 0x00, 0x43, 0x00]
        = true
    ∧ (readFromDisk homePaths qtText 3 4 ReadFaults.none "/home/u/notes.txt"
        (emptyBufferOn [0xFF, 0xFE, 0x41, 0x00, 0x42, 0x00, 0x43, 0x00])).map
          (fun r => (r.1, r.2.editor.text))
      = some (true, [0x41, 0x42, 0x43])
    ∧ (readFromDisk homePaths qtText 8 4 ReadFaults.none "/home/u/notes.txt"
        (emptyBufferOn [0xFF, 0xFE, 0x41, 0x00, 0x42, 0x00, 0x43, 0x00])).map
          (fun r => (r.1, r.2.editor.text))
      = some (true, [0x41, 0x42, 0x43]) :=
  ⟨rfl, by decide, by decide, by decide⟩

/-! ### The document across operations -/

/-- C9: the transition from `Temporary` to a backed document is one-way. From a document whose
`bufferType` is `File` or `FileMissing`, every operation (`save`, `saveAs`, `saveCopyAs`,
`rename`, `reload`, `checkFileForStateChange`, `moveToTrash`), whatever the platform does
during the call, ends (given the fuel to finish a load) in a document whose `bufferType` is
again `File` or `FileMissing`. -/
theorem backed_stays_backed (penv : PathEnv) (tenv : TextEnv) (chunkSize : Nat)
    (hk : 0 < chunkSize) (op : Op) (s : Sys) (h : isFile s.editor = true) :
    ∃ N, ∀ fuel, N ≤ fuel →
      ∃ s', Op.run penv tenv chunkSize fuel op s = some s' ∧ isFile s'.editor = true := by
  cases op with
  | save o =>
      refine ⟨0, fun fuel _ => ⟨_, rfl, ?_⟩⟩
      cases o <;>
        simpa [isFile, save, writeToDisk, updateTimestamp, setSavePoint, Sys.say] using h
  | saveAs o newFilePath =>
      refine ⟨0, fun fuel _ => ⟨_, rfl, ?_⟩⟩
      cases o
      · simpa [isFile, saveAs, writeToDisk, Sys.say] using h
      · simpa [isFile, saveAs, writeToDisk, Sys.say] using h
      · simp only [saveAs, writeToDisk]
        split <;> simp [isFile, setFileInfo, updateTimestamp, setSavePoint, Sys.say]
  | saveCopyAs o filePath =>
      refine ⟨0, fun fuel _ => ⟨_, rfl, ?_⟩⟩
      cases o <;> simpa [isFile, saveCopyAs, writeToDisk, Sys.say] using h
  | rename o removeOk newFilePath =>
      refine ⟨0, fun fuel _ => ⟨_, rfl, ?_⟩⟩
      cases o
      · simpa [isFile, rename, saveCopyAs, writeToDisk, Sys.say] using h
      · simpa [isFile, rename, saveCopyAs, writeToDisk, Sys.say] using h
      · simp [isFile, rename, saveCopyAs, writeToDisk, setFileInfo, updateTimestamp,
          setSavePoint, Sys.say]
  | reload io =>
      obtain ⟨N, hN⟩ := reload_terminates penv tenv chunkSize hk io s
      refine ⟨N, fun fuel hfuel => ?_⟩
      obtain ⟨s', hs'⟩ := hN fuel hfuel
      refine ⟨s', hs', ?_⟩
      have hb := reload_bufferType penv tenv chunkSize fuel io s s' hs'
      simpa [isFile, hb] using h
  | checkFileForStateChange =>
      refine ⟨0, fun fuel _ => ⟨_, rfl, ?_⟩⟩
      simp only [isFile, Bool.or_eq_true, decide_eq_true_eq] at h
      unfold checkFileForStateChange
      rcases h with h | h <;> rw [h] <;> simp only [] <;> split <;>
        (try split) <;> simp [isFile, Sys.say, h]
  | moveToTrash ok =>
      refine ⟨0, fun fuel _ => ⟨_, rfl, ?_⟩⟩
      unfold moveToTrash QFile.moveToTrash
      split
      · split <;> simpa [isFile, Sys.say] using h
      · exact h

/-- Witness of C9: `reload` of the document `opened`, read in chunks of 2. -/
theorem backed_stays_backed_witness :
    0 < 2 ∧ isFile opened.editor = true
      ∧ ∃ N, ∀ fuel, N ≤ fuel →
          ∃ s', Op.run homePaths qtText 2 fuel (Op.reload ReadFaults.none) opened = some s'
            ∧ isFile s'.editor = true :=
  ⟨by decide, by decide,
    backed_stays_backed homePaths qtText 2 (by decide) (Op.reload ReadFaults.none) opened
      (by decide)⟩

/-- C10, at a failing input: the file of an open document now holds `abc`; `reload` reads it in
chunks of 2 and the second `appendText` runs out of memory. The read fails, the time stamp and
the save point are not refreshed, but the buffer is not empty: it holds the first chunk. -/
theorem reload_failure_keeps_first_chunk :
    (reload homePaths qtText 2 3 { ReadFaults.none with appends := [false, true] }
        openedStale).map
      (fun s => (s.editor.text, s.editor.status, s.editor.modifiedTime,
        decide (Effect.sci SciCall.setSavePoint ∈ s.log),
        decide (Effect.warn Warning.badStatus ∈ s.log)))
    = some ([97, 98], SC_STATUS_BADALLOC, some 3, false, true) := by
  decide

/-! ### `save` and the state of the document -/

theorem save_bufferType (env : PathEnv) (o : WriteOutcome) (s : Sys) :
    (save env o s).2.editor.bufferType = s.editor.bufferType := by
  cases o <;> simp [save, writeToDisk, updateTimestamp, setSavePoint, Sys.say]

theorem Disk_find_store (d : Disk) (key : String) (e : FileEntry) :
    Disk.find (Disk.store d key e) key = some e := by
  simp [Disk.store, Disk.find]

/-- After a `save` that commits, the file the document is bound to exists, so a poll of a
`FileMissing` document reports `Restored`. -/
theorem check_after_save_of_missing_reports_restored (env : PathEnv) (s : Sys)
    (hm : s.editor.bufferType = BufferType.FileMissing) (hp : s.editor.fileInfo.file ≠ "") :
    (checkFileForStateChange env (save env WriteOutcome.committed s).2).1
      = FileStateChange.Restored := by
  have hb := save_bufferType env WriteOutcome.committed s
  have he : QFileInfo.exists env (save env WriteOutcome.committed s).2.disk
      (save env WriteOutcome.committed s).2.editor.fileInfo = true := by
    simp [save, writeToDisk, updateTimestamp, setSavePoint, Sys.say, QFileInfo.exists,
      QFile.exists, QFileInfo.filePath, Disk_find_store, hp]
  unfold checkFileForStateChange
  rw [hb, hm]
  simp only [he, if_true]

/-- C11: `save()` never changes `bufferType`. For every document in state `File` or
`FileMissing` and every outcome of the write, `bufferType` after `save` is what it was before.
In particular, when a `FileMissing` document is saved and the write commits, `save` returns
`true` and marks the save point, yet the document is still `FileMissing` and `isSavedToDisk()`
is `false` whatever `modify()` says; after the next poll `isSavedToDisk()` is true exactly when
that poll reported `Restored` and the buffer is unmodified. -/
theorem save_keeps_bufferType (env : PathEnv) (o : WriteOutcome) (modify : Bool) (s : Sys)
    (_hfile : isFile s.editor = true) :
    (save env o s).2.editor.bufferType = s.editor.bufferType
      ∧ (s.editor.bufferType = BufferType.FileMissing →
          (save env WriteOutcome.committed s).1 = true
            ∧ Effect.sci SciCall.setSavePoint ∈ (save env WriteOutcome.committed s).2.since s
            ∧ (save env WriteOutcome.committed s).2.editor.bufferType = BufferType.FileMissing
            ∧ isSavedToDisk modify (save env WriteOutcome.committed s).2.editor = false
            ∧ isSavedToDisk modify
                (checkFileForStateChange env (save env WriteOutcome.committed s).2).2.editor
              = (decide ((checkFileForStateChange env
                    (save env WriteOutcome.committed s).2).1 = FileStateChange.Restored)
                  && !modify)) := by
  refine ⟨save_bufferType env o s, fun hm => ?_⟩
  have hb : (save env WriteOutcome.committed s).2.editor.bufferType
      = BufferType.FileMissing := by
    rw [save_bufferType, hm]
  refine ⟨?_, ?_, hb, ?_, ?_⟩
  · simp [save, writeToDisk]
  · simp [save, writeToDisk, updateTimestamp, setSavePoint, Sys.say, Sys.since]
  · simp [isSavedToDisk, hb]
  · unfold checkFileForStateChange
    rw [hb]
    simp only []
    split <;> simp [isSavedToDisk, hb]

/-- Witness of C11: the document `vanished`, saved with a write that commits and an
unmodified buffer. -/
theorem save_keeps_bufferType_witness :
    isFile vanished.editor = true ∧ vanished.editor.bufferType = BufferType.FileMissing
      ∧ (save homePaths WriteOutcome.committed vanished).2.editor.bufferType
          = vanished.editor.bufferType
      ∧ (vanished.editor.bufferType = BufferType.FileMissing →
          (save homePaths WriteOutcome.committed vanished).1 = true
            ∧ Effect.sci SciCall.setSavePoint
                ∈ (save homePaths WriteOutcome.committed vanished).2.since vanished
            ∧ (save homePaths WriteOutcome.committed vanished).2.editor.bufferType
                = BufferType.FileMissing
            ∧ isSavedToDisk false (save homePaths WriteOutcome.committed vanished).2.editor
                = false
            ∧ isSavedToDisk false
                (checkFileForStateChange homePaths
                  (save homePaths WriteOutcome.committed vanished).2).2.editor
              = (decide ((checkFileForStateChange homePaths
                    (save homePaths WriteOutcome.committed vanished).2).1
                      = FileStateChange.Restored)
                  && !false)) :=
  ⟨by decide, rfl,
    save_keeps_bufferType homePaths WriteOutcome.committed false vanished (by decide)⟩

end NotepadNext
